import Mathlib

/-
A shallow embedding of the fsm package (fsm.go): a finite-state-machine
engine with named states, source-list transition validation, per-state
cancellable lifecycle contexts derived from an optional machine root
context, and a single worker loop draining a transition channel.

Modelling conventions:
  - Go pointers to State objects are heap indices (Nat) into a function
    heap carried by the Machine record; mutation through a pointer is a
    pointwise update of that function.
  - Go contexts: each root scope created by WithContext gets a fresh id
    and a cancellation flag (Machine.roots); a state scope (StCtx) records
    its own cancel flag, its parent root id and a generation counter that
    distinguishes scope instances.  A scope reports cancelled (ctx.Err()
    is non-nil) when its own flag is set or its parent root is cancelled,
    which is exactly Go's propagation for the two-level tree this code
    builds (state scopes are only ever children of the machine root).
  - Entry actions, the before-hook and the start hook are modelled by
    presence flags / ids; invoking them is recorded as an event.
  - context.WithCancel with a nil parent panics in Go; Start performs that
    call unguarded, so Start returns a StartResult that can be .panicked.
  - The transitions channel is modelled as a FIFO list (queue); blocking
    on the capacity-1 channel is a scheduling matter outside this
    sequential model, the FIFO order is what the order theorems use.
-/

namespace Fsm

/-- Lifecycle scope of a state: generation counter (fresh per creation),
own cancellation flag, and the id of the machine root it derives from. -/
structure StCtx where
  gen : Nat
  ownCancelled : Bool
  rootId : Nat
deriving DecidableEq

/-- State mirrors the Go struct: Source list, Destination name, optional
entry action (by id), parallel / isStart / fromAny / fromStart flags and
the optional lifecycle scope (ctx and cancel are set together in the Go
code, so one Option field models both). -/
structure State where
  Source : List String
  Destination : String
  onEnterFunc : Option Nat
  parallel : Bool
  isStart : Bool
  fromAny : Bool
  fromStart : Bool
  ctx : Option StCtx
deriving DecidableEq

/-- Zero value of the State struct, as produced by NewState. -/
def blankState : State :=
  { Source := [], Destination := "", onEnterFunc := none,
    parallel := false, isStart := false, fromAny := false,
    fromStart := false, ctx := none }

/-- Transition record: From is the (nullable) pointer to the previous
current state, To the pointer to the validated target state. -/
structure Transition where
  From : Option Nat
  To : Nat
deriving DecidableEq

/-- StateMachine: heap of all allocated State objects (pointer = index,
nextSt = next fresh slot), the registry (s.States, in order), the current
state pointer, the transitions channel contents, the root scopes ever
created (roots r = cancelled flag of root id r) with the machine's own
root id, the worker guard and the hook presence flags. -/
structure Machine where
  heap : Nat → State
  nextSt : Nat
  registry : List Nat
  current : Option Nat
  queue : List Transition
  roots : Nat → Bool
  nextRoot : Nat
  root : Option Nat
  workerStarted : Bool
  hasBeforeFn : Bool
  hasOnStart : Bool
  nextGen : Nat

/-- New returns a new, empty StateMachine instance. -/
def New : Machine :=
  { heap := fun _ => blankState, nextSt := 0, registry := [],
    current := none, queue := [], roots := fun _ => false,
    nextRoot := 0, root := none, workerStarted := false,
    hasBeforeFn := false, hasOnStart := false, nextGen := 0 }

/-- WithContext applies a context to the state machine: a fresh
cancellable root scope is derived from the caller's context. -/
def Machine.WithContext (m : Machine) : Machine :=
  { m with root := some m.nextRoot, nextRoot := m.nextRoot + 1 }

/-- Cancelling the machine's root scope (the caller cancels the parent
context passed to WithContext, which propagates to the derived root). -/
def Machine.cancelRoot (m : Machine) : Machine :=
  match m.root with
  | some r => { m with roots := fun x => if x = r then true else m.roots x }
  | none => m

/-- Has the machine root scope been cancelled (s.ctx.Err() != nil)?
False when the machine has no root scope (that code path is guarded by
s.ctx != nil in the Go source). -/
def Machine.rootErr (m : Machine) : Bool :=
  match m.root with
  | some r => m.roots r
  | none => false

/-- Effective cancellation status of a state scope: its own flag or its
parent root's flag (Go context propagation down the two-level tree). -/
def Machine.ctxErr (m : Machine) (sc : StCtx) : Bool :=
  sc.ownCancelled || m.roots sc.rootId

/-- NewState returns a new (zero-valued) state instance and appends it to
the machine's States slice; the result carries the new pointer. -/
def Machine.NewState (m : Machine) : Machine × Nat :=
  ({ m with heap := fun j => if j = m.nextSt then blankState else m.heap j,
            nextSt := m.nextSt + 1,
            registry := m.registry ++ [m.nextSt] }, m.nextSt)

/-- Pointwise update of one State object through its pointer. -/
def Machine.setSt (m : Machine) (i : Nat) (st : State) : Machine :=
  { m with heap := fun j => if j = i then st else m.heap j }

/-- State.To through pointer i: assigns a Destination to the State. -/
def Machine.setTo (m : Machine) (i : Nat) (dn : String) : Machine :=
  m.setSt i { m.heap i with Destination := dn }

/-- State.From through pointer i: assigns the Source list to the State. -/
def Machine.setFrom (m : Machine) (i : Nat) (src : List String) : Machine :=
  m.setSt i { m.heap i with Source := src }

/-- State.FromAny through pointer i. -/
def Machine.setFromAny (m : Machine) (i : Nat) : Machine :=
  m.setSt i { m.heap i with fromAny := true }

/-- State.FromStart through pointer i. -/
def Machine.setFromStart (m : Machine) (i : Nat) : Machine :=
  m.setSt i { m.heap i with fromStart := true }

/-- State.OnEnter through pointer i: attaches an entry action (by id). -/
def Machine.setOnEnter (m : Machine) (i : Nat) (a : Nat) : Machine :=
  m.setSt i { m.heap i with onEnterFunc := some a }

/-- State.Parallel through pointer i. -/
def Machine.setParallel (m : Machine) (i : Nat) (p : Bool) : Machine :=
  m.setSt i { m.heap i with parallel := p }

/-- StateMachine.OnStart: registers the start hook. -/
def Machine.OnStart (m : Machine) : Machine :=
  { m with hasOnStart := true }

/-- StateMachine.BeforeTransition: registers the before hook. -/
def Machine.BeforeTransition (m : Machine) : Machine :=
  { m with hasBeforeFn := true }

/-- Find locates a state by name: the first registered state whose
Destination equals the requested name, or none (Go: Invalid state error). -/
def Machine.Find (m : Machine) (st : String) : Option Nat :=
  m.registry.find? (fun i => (m.heap i).Destination == st)

/-- Exists determines whether a state has been set. -/
def Machine.existsState (m : Machine) : Bool :=
  m.current.isSome

/-- Match returns true when some input matches the current state
Destination (false when no current state exists). -/
def Machine.Match (m : Machine) (compare : List String) : Bool :=
  match m.current with
  | none => false
  | some c => compare.any (fun nm => (m.heap c).Destination == nm)

/-- Name returns the current State's destination name, or "" when no
current state exists. -/
def Machine.Name (m : Machine) : String :=
  match m.current with
  | some c => (m.heap c).Destination
  | none => ""

/-- IsValidStateChange: look the target up by name (UnknownState error on
failure), then accept when it is fromAny, or when no current state
exists, or when the current state is the start state and the target is
fromStart, or when the current Destination is in the target's Source
list; otherwise fail with the IllegalTransition error. -/
def Machine.IsValidStateChange (m : Machine) (name : String) : Except String Nat :=
  match m.Find name with
  | none => .error ("Invalid state: " ++ name)
  | some i =>
    if (m.heap i).fromAny then .ok i
    else
      match m.current with
      | none => .ok i
      | some c =>
        if (m.heap c).isStart && (m.heap i).fromStart then .ok i
        else if (m.heap i).Source.contains (m.heap c).Destination then .ok i
        else .error ("Invalid state change: " ++ (m.heap c).Destination
                      ++ " > " ++ (m.heap i).Destination)

/-- Observable events emitted by a Transition / Start call, in program
order: scope creation for the inbound state, cancellation of the current
state's scope, hand-off of the record to the worker channel or dispatch
of a background goroutine, and the synchronous start-hook invocation. -/
inductive Event where
  | scopeCreated : Nat → Nat → Event
  | scopeCancelled : Nat → Event
  | enqueued : Transition → Event
  | goDispatch : Transition → Event
  | hookStart : Nat → Event
deriving DecidableEq

/-- Block of Transition that gives the inbound state a new context: only
when the machine has a root scope does the target state receive a fresh
child scope (state.ctx, state.cancel = context.WithCancel(s.ctx)). -/
def Machine.giveCtx (m : Machine) (i : Nat) : Machine × List Event :=
  match m.root with
  | some rid =>
    (({ m with nextGen := m.nextGen + 1 } : Machine).setSt i
       { m.heap i with ctx := some ⟨m.nextGen, false, rid⟩ },
     [Event.scopeCreated i m.nextGen])
  | none => (m, [])

/-- Block of Transition that cancels the current state's context, guarded
by s.CurrentState != nil and s.CurrentState.cancel != nil (cancel and ctx
are always set together, so the guard is ctx presence). -/
def Machine.cancelCur (m : Machine) : Machine × List Event :=
  match m.current with
  | some c =>
    match (m.heap c).ctx with
    | some sc =>
      (m.setSt c { m.heap c with ctx := some { sc with ownCancelled := true } },
       [Event.scopeCancelled c])
    | none => (m, [])
  | none => (m, [])

/-- Tail of Transition: a parallel state dispatches the record on its own
goroutine and current advances; otherwise, when the root scope is already
cancelled the call returns early (the record is dropped AND current is
not advanced — the early return skips the assignment); otherwise the
record is pushed onto the channel and current advances. -/
def Machine.dispatch (m : Machine) (i : Nat) (tr : Transition) :
    Option String × Machine × List Event :=
  if (m.heap i).parallel then
    (none, { m with current := some i }, [Event.goDispatch tr])
  else if m.rootErr then
    (none, m, [])
  else
    (none, { m with current := some i, queue := m.queue ++ [tr] },
     [Event.enqueued tr])

/-- Transition changes the state when permissible: self-transitions are
ignored, the validator runs, the inbound state gets a fresh scope, the
record is built from the old current pointer, the old current scope is
cancelled, and the record is handed off (see dispatch). Returns the
error, the resulting machine and the emitted events in program order. -/
def Machine.Transition (m : Machine) (tn : String) :
    Option String × Machine × List Event :=
  if m.Match [tn] then (none, m, [])
  else
    match m.IsValidStateChange tn with
    | .error e => (some e, m, [])
    | .ok i =>
      let p1 := m.giveCtx i
      let tr : Fsm.Transition := ⟨m.current, i⟩
      let p2 := p1.1.cancelCur
      let d := p2.1.dispatch i tr
      (d.1, d.2.1, p1.2 ++ p2.2 ++ d.2.2)

/-- Guard of Initialize: the worker goroutine is launched at most once.
The goroutine itself is modelled by workerRun below. -/
def Machine.initWorker (m : Machine) : Machine :=
  if m.workerStarted then m else { m with workerStarted := true }

/-- Result of Start: the missing-OnStart error, a normal return carrying
the machine, the start state's pointer and the hook-invocation event, or
a panic — Start calls context.WithCancel(s.ctx) unguarded, which panics
in Go when the machine has no root scope (nil parent context). -/
inductive StartResult where
  | panicked : StartResult
  | errored : String → Machine → StartResult
  | ok : Machine → Nat → List Event → StartResult

/-- Start launches the state machine: initialize the worker if needed,
fail when no OnStart hook is registered, then synthesize the implicit
start state, give it a fresh scope (panicking when there is no root
scope), set it current (it is not added to the registry) and invoke the
start hook synchronously with it. -/
def Machine.Start (m : Machine) : StartResult :=
  let m1 := m.initWorker
  if !m1.hasOnStart then
    .errored "Finite State Machine is missing 'OnStart' method" m1
  else
    match m1.root with
    | none => .panicked
    | some rid =>
      let st : State :=
        { blankState with isStart := true, ctx := some ⟨m1.nextGen, false, rid⟩ }
      let idx := m1.nextSt
      .ok ({ m1 with nextGen := m1.nextGen + 1, nextSt := m1.nextSt + 1,
                     current := some idx }.setSt idx st)
         idx [Event.hookStart idx]

/-- Worker-side events: the before hook ran for a record, or a state's
entry action (by id) ran for the entered state. -/
inductive WEvent where
  | beforeHook : Fsm.Transition → WEvent
  | entered : Nat → Nat → WEvent
deriving DecidableEq

/-- One worker iteration body for a received record: run the before hook
when set, then Transition.do (the target's entry action when set). -/
def Machine.execOne (m : Machine) (t : Fsm.Transition) : List WEvent :=
  (if m.hasBeforeFn then [WEvent.beforeHook t] else []) ++
  (match (m.heap t.To).onEnterFunc with
   | some a => [WEvent.entered a t.To]
   | none => [])

/-- FIFO drain of a record list by the single worker. -/
def Machine.drainFrom (m : Machine) : List Fsm.Transition → List WEvent
  | [] => []
  | t :: rest => m.execOne t ++ m.drainFrom rest

/-- The worker goroutine launched by Initialize, run over the queued
records: with no root scope its first select touches a nil context and
the goroutine crashes (none); with a cancelled root scope it exits
without executing anything; otherwise it drains the channel in FIFO
order, one record at a time. -/
def Machine.workerRun (m : Machine) : Option (List WEvent) :=
  match m.root with
  | none => none
  | some _ => some (if m.rootErr then [] else m.drainFrom m.queue)

/-- Sequence of Transition calls, accumulating the emitted events. -/
def Machine.runAll (m : Machine) : List String → Machine × List Event
  | [] => (m, [])
  | n :: rest =>
    let r := m.Transition n
    let r2 := r.2.1.runAll rest
    (r2.1, r.2.2 ++ r2.2)

/-- Selector for enqueue events (used to speak about FIFO order). -/
def enqRec : Event → Option Fsm.Transition
  | .enqueued t => some t
  | _ => none

/-- Machines reachable through the package's exported operations. -/
inductive Reachable : Machine → Prop where
  | new : Reachable New
  | withContext {m} : Reachable m → Reachable m.WithContext
  | cancelRoot {m} : Reachable m → Reachable m.cancelRoot
  | newState {m} : Reachable m → Reachable (m.NewState).1
  | setTo {m} (i : Nat) (dn : String) : Reachable m → Reachable (m.setTo i dn)
  | setFrom {m} (i : Nat) (src : List String) : Reachable m → Reachable (m.setFrom i src)
  | setFromAny {m} (i : Nat) : Reachable m → Reachable (m.setFromAny i)
  | setFromStart {m} (i : Nat) : Reachable m → Reachable (m.setFromStart i)
  | setOnEnter {m} (i a : Nat) : Reachable m → Reachable (m.setOnEnter i a)
  | setParallel {m} (i : Nat) (p : Bool) : Reachable m → Reachable (m.setParallel i p)
  | onStart {m} : Reachable m → Reachable m.OnStart
  | beforeTransition {m} : Reachable m → Reachable m.BeforeTransition
  | initW {m} : Reachable m → Reachable m.initWorker
  | startOk {m m' idx evs} : Reachable m → m.Start = .ok m' idx evs → Reachable m'
  | startErr {m msg m'} : Reachable m → m.Start = .errored msg m' → Reachable m'
  | transition {m} (tn : String) : Reachable m → Reachable (m.Transition tn).2.1

/- ------------------------------------------------------------------ -/
/- Helper lemmas about the embedded operations.                        -/
/- ------------------------------------------------------------------ -/

lemma find_some_dest {m : Machine} {name : String} {i : Nat}
    (h : m.Find name = some i) : (m.heap i).Destination = name := by
  have := List.find?_some h
  simpa using this

lemma isValid_ok_find {m : Machine} {name : String} {i : Nat}
    (h : m.IsValidStateChange name = .ok i) : m.Find name = some i := by
  unfold Machine.IsValidStateChange at h
  cases hf : m.Find name with
  | none => simp [hf] at h
  | some j =>
    simp only [hf] at h
    have hji : j = i := by
      split at h
      · exact Except.ok.inj h
      · split at h
        · exact Except.ok.inj h
        · split at h
          · exact Except.ok.inj h
          · split at h
            · exact Except.ok.inj h
            · cases h
    exact congrArg some hji

lemma match_single {m : Machine} {c : Nat} {name : String}
    (hcur : m.current = some c) :
    m.Match [name] = ((m.heap c).Destination == name) := by
  simp [Machine.Match, hcur]

lemma transition_self {m : Machine} {tn : String}
    (hm : m.Match [tn] = true) : m.Transition tn = (none, m, []) := by
  simp [Machine.Transition, hm]

lemma transition_invalid {m : Machine} {tn : String} {e : String}
    (hm : m.Match [tn] = false)
    (hv : m.IsValidStateChange tn = .error e) :
    m.Transition tn = (some e, m, []) := by
  simp [Machine.Transition, hm, hv]

lemma transition_ok_eq {m : Machine} {tn : String} {i : Nat}
    (hm : m.Match [tn] = false)
    (hv : m.IsValidStateChange tn = .ok i) :
    m.Transition tn =
      ((((m.giveCtx i).1.cancelCur).1.dispatch i ⟨m.current, i⟩).1,
       (((m.giveCtx i).1.cancelCur).1.dispatch i ⟨m.current, i⟩).2.1,
       (m.giveCtx i).2 ++ ((m.giveCtx i).1.cancelCur).2
         ++ (((m.giveCtx i).1.cancelCur).1.dispatch i ⟨m.current, i⟩).2.2) := by
  simp [Machine.Transition, hm, hv]

lemma giveCtx_current (m : Machine) (i : Nat) :
    (m.giveCtx i).1.current = m.current := by
  cases h : m.root <;> simp [Machine.giveCtx, Machine.setSt, h]

lemma giveCtx_queue (m : Machine) (i : Nat) :
    (m.giveCtx i).1.queue = m.queue := by
  cases h : m.root <;> simp [Machine.giveCtx, Machine.setSt, h]

lemma giveCtx_root (m : Machine) (i : Nat) :
    (m.giveCtx i).1.root = m.root := by
  cases h : m.root <;> simp [Machine.giveCtx, Machine.setSt, h]

lemma giveCtx_roots (m : Machine) (i : Nat) :
    (m.giveCtx i).1.roots = m.roots := by
  cases h : m.root <;> simp [Machine.giveCtx, Machine.setSt, h]

lemma cancelCur_current (m : Machine) :
    m.cancelCur.1.current = m.current := by
  cases h : m.current with
  | none => simp [Machine.cancelCur, h]
  | some c =>
    cases hc : (m.heap c).ctx <;> simp [Machine.cancelCur, h, hc, Machine.setSt]

lemma cancelCur_queue (m : Machine) :
    m.cancelCur.1.queue = m.queue := by
  cases h : m.current with
  | none => simp [Machine.cancelCur, h]
  | some c =>
    cases hc : (m.heap c).ctx <;> simp [Machine.cancelCur, h, hc, Machine.setSt]

lemma cancelCur_root (m : Machine) :
    m.cancelCur.1.root = m.root := by
  cases h : m.current with
  | none => simp [Machine.cancelCur, h]
  | some c =>
    cases hc : (m.heap c).ctx <;> simp [Machine.cancelCur, h, hc, Machine.setSt]

lemma cancelCur_roots (m : Machine) :
    m.cancelCur.1.roots = m.roots := by
  cases h : m.current with
  | none => simp [Machine.cancelCur, h]
  | some c =>
    cases hc : (m.heap c).ctx <;> simp [Machine.cancelCur, h, hc, Machine.setSt]

lemma rootErr_of_parts {m m' : Machine}
    (h1 : m'.root = m.root) (h2 : m'.roots = m.roots) :
    m'.rootErr = m.rootErr := by
  unfold Machine.rootErr
  rw [h1, h2]

lemma giveCtx_heap_other (m : Machine) (i j : Nat) (h : j ≠ i) :
    (m.giveCtx i).1.heap j = m.heap j := by
  cases hr : m.root <;> simp [Machine.giveCtx, Machine.setSt, hr, h]

lemma cancelCur_heap_parallel (m : Machine) (j : Nat) :
    (m.cancelCur.1.heap j).parallel = (m.heap j).parallel := by
  cases h : m.current with
  | none => simp [Machine.cancelCur, h]
  | some c =>
    cases hc : (m.heap c).ctx with
    | none => simp [Machine.cancelCur, h, hc]
    | some sc =>
      simp only [Machine.cancelCur, h, hc, Machine.setSt]
      by_cases hj : j = c
      · subst hj; simp
      · simp [hj]

/- ------------------------------------------------------------------ -/
/- Claims.                                                             -/
/- ------------------------------------------------------------------ -/

/-- C1: for a machine and a name such that no registered state has that
name as Destination and the name differs from the current state's
Destination, Transition returns the UnknownState error ("Invalid state:
name") and the machine — current state, registry and all — is unchanged
(and no lifecycle or queue event is emitted). -/
theorem C1_unknown_state (m : Machine) (name : String)
    (hreg : ∀ i ∈ m.registry, (m.heap i).Destination ≠ name)
    (hcur : ∀ c, m.current = some c → (m.heap c).Destination ≠ name) :
    m.Transition name = (some ("Invalid state: " ++ name), m, []) := by
  have hfind : m.Find name = none := by
    unfold Machine.Find
    rw [List.find?_eq_none]
    intro i hi
    simpa using hreg i hi
  have hmatch : m.Match [name] = false := by
    cases hc : m.current with
    | none => simp [Machine.Match, hc]
    | some c => simp [match_single hc, hcur c hc]
  have hvalid : m.IsValidStateChange name = .error ("Invalid state: " ++ name) := by
    simp [Machine.IsValidStateChange, hfind]
  exact transition_invalid hmatch hvalid

/-- Concrete machine for the C1 witness: one state named "foo". -/
def mW1 : Machine :=
  { New with heap := fun j => if j = 0 then { blankState with Destination := "foo" }
                              else blankState,
             nextSt := 1, registry := [0] }

/-- Witness for C1 at a concrete machine and name. -/
theorem C1_unknown_state_w :
    mW1.Transition "zzz" = (some ("Invalid state: " ++ "zzz"), mW1, []) :=
  C1_unknown_state mW1 "zzz" (by decide) (fun c hc => nomatch hc)

/-- C10: with no current state, Name returns the empty string and Match
returns false for every list of names. -/
theorem C10_nil_current (m : Machine) (h : m.current = none) :
    m.Name = "" ∧ ∀ names, m.Match names = false := by
  constructor
  · simp [Machine.Name, h]
  · intro names
    simp [Machine.Match, h]

/-- Witness for C10 on the fresh machine, including the empty-string
name. -/
theorem C10_nil_current_w :
    New.Name = "" ∧ New.Match [""] = false ∧ New.Match [] = false :=
  ⟨(C10_nil_current New rfl).1, (C10_nil_current New rfl).2 [""],
   (C10_nil_current New rfl).2 []⟩

/-- Concrete machine refuting C2 as stated: two registered states share
the Destination "x" (duplicate names are unenforced); the second one is
current.  The first one (found by lookup) does not list "x" among its
sources, is not fromAny, and no fromStart rule applies — yet requesting
"x" is suppressed as a self-transition and returns no error. -/
def mC2 : Machine :=
  { New with
      heap := fun j => if j = 0 then { blankState with Destination := "x" }
                       else if j = 1 then { blankState with Destination := "x" }
                       else blankState,
      nextSt := 2, registry := [0, 1], current := some 1 }

/-- Counterexample to C2: all hypotheses of the claim hold (current state
A = state 1 named "x", lookup target B = state 0 with "x" not in its
Source list, not fromAny, no fromStart rule), but Transition "x" returns
no error at all instead of the IllegalTransition error. -/
theorem C2_cex_duplicate_name :
    mC2.Find "x" = some 0 ∧ mC2.current = some 1
    ∧ (mC2.heap 0).Source.contains (mC2.heap 1).Destination = false
    ∧ (mC2.heap 0).fromAny = false
    ∧ ((mC2.heap 1).isStart && (mC2.heap 0).fromStart) = false
    ∧ (mC2.Transition "x").1 = none
    ∧ (mC2.Transition "x").2.1.current = some 1 := by
  refine ⟨?_, rfl, rfl, rfl, rfl, rfl, rfl⟩
  rfl

/-- C2 amended: additionally assuming the requested name differs from the
current state's Destination (otherwise the request is a self-transition
no-op), Transition returns the IllegalTransition error ("Invalid state
change: A > B") and the machine — current state, scopes, registry and
queue — is wholly unchanged. -/
theorem C2_illegal_transition (m : Machine) (name : String) (i c : Nat)
    (hfind : m.Find name = some i)
    (hcur : m.current = some c)
    (hself : (m.heap c).Destination ≠ name)
    (hsrc : (m.heap i).Source.contains (m.heap c).Destination = false)
    (hany : (m.heap i).fromAny = false)
    (hstart : ((m.heap c).isStart && (m.heap i).fromStart) = false) :
    m.Transition name =
      (some ("Invalid state change: " ++ (m.heap c).Destination
              ++ " > " ++ (m.heap i).Destination), m, []) := by
  have hmatch : m.Match [name] = false := by
    simp [match_single hcur, hself]
  have hsrc' : (m.heap c).Destination ∉ (m.heap i).Source := by
    simpa using hsrc
  have hvalid : m.IsValidStateChange name =
      .error ("Invalid state change: " ++ (m.heap c).Destination
               ++ " > " ++ (m.heap i).Destination) := by
    simp [Machine.IsValidStateChange, hfind, hany, hcur, hstart, hsrc']
  exact transition_invalid hmatch hvalid

/-- Concrete machine for the C2 witness: current state "bar", registered
state "baz" reachable only from "foo". -/
def mW2 : Machine :=
  { New with
      heap := fun j =>
        if j = 0 then { blankState with Destination := "bar", Source := ["foo"] }
        else if j = 1 then { blankState with Destination := "baz", Source := ["foo"] }
        else blankState,
      nextSt := 2, registry := [0, 1], current := some 0 }

/-- Witness for the amended C2 at a concrete machine (the scenario of
TestInvalidTransition): bar > baz is rejected and nothing changes. -/
theorem C2_illegal_transition_w :
    mW2.Transition "baz" =
      (some ("Invalid state change: " ++ (mW2.heap 0).Destination
              ++ " > " ++ (mW2.heap 1).Destination), mW2, []) :=
  C2_illegal_transition mW2 "baz" 1 0 rfl rfl (by decide) rfl rfl rfl

/-- C3: the validator applies its rules in fixed priority order — after
lookup, a fromAny target is accepted regardless of the current state and
its Source list; otherwise with no current state the transition is
accepted unconditionally; otherwise a start-state current with a
fromStart target is accepted; otherwise acceptance holds exactly when the
current state's Destination appears in the target's Source list (with
the IllegalTransition error in the remaining case). -/
theorem C3_validator_priority (m : Machine) (name : String) (i : Nat)
    (hfind : m.Find name = some i) :
    ((m.heap i).fromAny = true → m.IsValidStateChange name = .ok i)
    ∧ (m.current = none → m.IsValidStateChange name = .ok i)
    ∧ (∀ c, m.current = some c → (m.heap c).isStart = true →
        (m.heap i).fromStart = true → m.IsValidStateChange name = .ok i)
    ∧ (∀ c, m.current = some c → (m.heap i).fromAny = false →
        ((m.heap c).isStart && (m.heap i).fromStart) = false →
        (((m.heap i).Source.contains (m.heap c).Destination = true →
            m.IsValidStateChange name = .ok i)
         ∧ ((m.heap i).Source.contains (m.heap c).Destination = false →
            m.IsValidStateChange name =
              .error ("Invalid state change: " ++ (m.heap c).Destination
                       ++ " > " ++ (m.heap i).Destination)))) := by
  refine ⟨?_, ?_, ?_, ?_⟩
  · intro hAny
    simp [Machine.IsValidStateChange, hfind, hAny]
  · intro hcur
    by_cases hAny : (m.heap i).fromAny
      <;> simp [Machine.IsValidStateChange, hfind, hAny, hcur]
  · intro c hc hst hfs
    by_cases hAny : (m.heap i).fromAny
      <;> simp [Machine.IsValidStateChange, hfind, hAny, hc, hst, hfs]
  · intro c hc hAny hsf
    constructor
    · intro hin
      have hin' : (m.heap c).Destination ∈ (m.heap i).Source := by
        simpa using hin
      simp [Machine.IsValidStateChange, hfind, hAny, hc, hsf, hin']
    · intro hnin
      have hnin' : (m.heap c).Destination ∉ (m.heap i).Source := by
        simpa using hnin
      simp [Machine.IsValidStateChange, hfind, hAny, hc, hsf, hnin']

/-- Concrete machine for the C3 witness: a fromAny state "w" with an
empty Source list, some other state current. -/
def mW3 : Machine :=
  { New with
      heap := fun j => if j = 0 then { blankState with Destination := "w", fromAny := true }
                       else blankState,
      nextSt := 1, registry := [0], current := some 9 }

/-- Witness for C3 at a concrete machine: the fromAny rule beats the
empty Source list of the target. -/
theorem C3_validator_priority_w : mW3.IsValidStateChange "w" = .ok 0 :=
  (C3_validator_priority mW3 "w" 0 rfl).1 rfl

lemma giveCtx_heap_parallel (m : Machine) (i j : Nat) :
    ((m.giveCtx i).1.heap j).parallel = (m.heap j).parallel := by
  cases hr : m.root with
  | none => simp [Machine.giveCtx, hr]
  | some rid =>
    simp only [Machine.giveCtx, hr, Machine.setSt]
    by_cases hj : j = i
    · subst hj; simp
    · simp [hj]

lemma giveCtx_no_enq (m : Machine) (i : Nat) (t : Transition) :
    Event.enqueued t ∉ (m.giveCtx i).2 := by
  cases hr : m.root <;> simp [Machine.giveCtx, hr]

lemma cancelCur_no_enq (m : Machine) (t : Transition) :
    Event.enqueued t ∉ m.cancelCur.2 := by
  cases h : m.current with
  | none => simp [Machine.cancelCur, h]
  | some c =>
    cases hc : (m.heap c).ctx <;> simp [Machine.cancelCur, h, hc]

/-- Case analysis on where Transition leaves the current pointer: either
it is untouched, or the validator accepted some target i and current
moved to i. -/
lemma transition_current_cases (m : Machine) (tn : String) :
    (m.Transition tn).2.1.current = m.current
    ∨ ∃ i, m.IsValidStateChange tn = .ok i
        ∧ (m.Transition tn).2.1.current = some i := by
  by_cases hm : m.Match [tn] = true
  · left
    rw [transition_self hm]
  · have hm' : m.Match [tn] = false := by
      simpa using hm
    cases hv : m.IsValidStateChange tn with
    | error e =>
      left
      rw [transition_invalid hm' hv]
    | ok i =>
      rw [transition_ok_eq hm' hv]
      unfold Machine.dispatch
      by_cases hp : (((m.giveCtx i).1.cancelCur).1.heap i).parallel
      · right
        exact ⟨i, rfl, by simp [hp]⟩
      · by_cases he : ((m.giveCtx i).1.cancelCur).1.rootErr
        · left
          simp [hp, he, cancelCur_current, giveCtx_current]
        · right
          exact ⟨i, rfl, by simp [hp, he]⟩

/-- Concrete machine refuting C9 as stated: a single registered state
whose Destination is the empty string. -/
def mC9 : Machine :=
  { New with nextSt := 1, registry := [0] }

/-- Counterexample to C9: the empty-Destination state IS selectable by
name — requesting the empty string succeeds and makes it current, so it
is not unreachable by name. -/
theorem C9_cex_empty_name :
    (mC9.heap 0).Destination = "" ∧ (mC9.Transition "").1 = none
    ∧ (mC9.Transition "").2.1.current = some 0 :=
  ⟨rfl, rfl, rfl⟩

/-- C9 amended: a state with empty Destination can be selected only by
requesting the empty name.  Whenever a Transition request moves the
current pointer to a state, that state's Destination equals the
requested name; hence for every non-empty requested name the selected
state's Destination is non-empty, and the empty-Destination state is
never selected by a non-empty name (registration-time setters accept the
empty name without validation). -/
theorem C9_empty_name_selection (m : Machine) (name : String) (i : Nat)
    (hne : name ≠ "")
    (hchanged : m.current ≠ some i)
    (hsel : (m.Transition name).2.1.current = some i) :
    (m.heap i).Destination = name ∧ (m.heap i).Destination ≠ "" := by
  rcases transition_current_cases m name with h | ⟨j, hv, hcur⟩
  · rw [h] at hsel
    exact absurd hsel hchanged
  · rw [hcur] at hsel
    have hji : j = i := by
      injection hsel
    subst hji
    have hd := find_some_dest (isValid_ok_find hv)
    exact ⟨hd, hd ▸ hne⟩

/-- Witness for the amended C9: transitioning to "foo" selects the state
named "foo", whose name is non-empty. -/
theorem C9_empty_name_selection_w :
    (mW1.heap 0).Destination = "foo" ∧ (mW1.heap 0).Destination ≠ "" :=
  C9_empty_name_selection mW1 "foo" 0 (by decide) (by simp [mW1, New]) rfl

/-- C5 amended: with the machine's root scope already cancelled, a valid
Transition request to a non-parallel state returns nil error and pushes
nothing onto the queue, and CurrentState is NOT advanced — the early
return in the cancelled branch skips the assignment, so current remains
the previous state. -/
theorem C5_cancelled_drop (m : Machine) (tn : String) (i : Nat)
    (hmatch : m.Match [tn] = false)
    (hvalid : m.IsValidStateChange tn = .ok i)
    (hpar : (m.heap i).parallel = false)
    (herr : m.rootErr = true) :
    (m.Transition tn).1 = none
    ∧ (m.Transition tn).2.1.queue = m.queue
    ∧ (m.Transition tn).2.1.current = m.current
    ∧ ∀ t, Event.enqueued t ∉ (m.Transition tn).2.2 := by
  rw [transition_ok_eq hmatch hvalid]
  have hp2 : (((m.giveCtx i).1.cancelCur).1.heap i).parallel = false := by
    rw [cancelCur_heap_parallel, giveCtx_heap_parallel]
    exact hpar
  have he2 : ((m.giveCtx i).1.cancelCur).1.rootErr = true := by
    rw [rootErr_of_parts (cancelCur_root _) (cancelCur_roots _),
        rootErr_of_parts (giveCtx_root _ _) (giveCtx_roots _ _)]
    exact herr
  refine ⟨?_, ?_, ?_, ?_⟩
  · simp [Machine.dispatch, hp2, he2]
  · simp [Machine.dispatch, hp2, he2, cancelCur_queue, giveCtx_queue]
  · simp [Machine.dispatch, hp2, he2, cancelCur_current, giveCtx_current]
  · intro t
    simp only [Machine.dispatch, hp2, he2]
    simp [List.mem_append, giveCtx_no_enq, cancelCur_no_enq]

/-- Concrete machine refuting C5 as stated: cancelled root scope, current
state "a" (with a live scope), target "b" non-parallel and reachable
from "a". -/
def mC5 : Machine :=
  { New with
      heap := fun j =>
        if j = 0 then { blankState with Destination := "a", ctx := some ⟨0, false, 0⟩ }
        else if j = 1 then { blankState with Destination := "b", Source := ["a"] }
        else blankState,
      nextSt := 2, registry := [0, 1], current := some 0,
      roots := fun r => r == 0, nextRoot := 1, root := some 0, nextGen := 1 }

/-- Counterexample to C5: the claim says CurrentState is nevertheless
advanced before the call returns; in fact the early return skips the
assignment — the call returns nil without enqueueing and current is
still the old state 0, not the validated target 1. -/
theorem C5_cex_not_advanced :
    mC5.rootErr = true
    ∧ mC5.Find "b" = some 1
    ∧ (mC5.Transition "b").1 = none
    ∧ (mC5.Transition "b").2.1.queue = []
    ∧ (mC5.Transition "b").2.1.current = some 0
    ∧ (mC5.Transition "b").2.1.current ≠ some 1 := by
  refine ⟨rfl, ?_, rfl, rfl, rfl, by decide⟩
  rfl

/-- Witness for the amended C5 at the same concrete machine. -/
theorem C5_cancelled_drop_w :
    (mC5.Transition "b").1 = none
    ∧ (mC5.Transition "b").2.1.queue = mC5.queue
    ∧ (mC5.Transition "b").2.1.current = mC5.current
    ∧ ∀ t, Event.enqueued t ∉ (mC5.Transition "b").2.2 :=
  C5_cancelled_drop mC5 "b" 1 (by decide) (by rfl) rfl rfl

lemma giveCtx_some {m : Machine} {rid : Nat} (i : Nat) (hr : m.root = some rid) :
    (m.giveCtx i).2 = [Event.scopeCreated i m.nextGen]
    ∧ ((m.giveCtx i).1.heap i).ctx = some ⟨m.nextGen, false, rid⟩
    ∧ ∀ j, j ≠ i → (m.giveCtx i).1.heap j = m.heap j := by
  refine ⟨by simp [Machine.giveCtx, hr], by simp [Machine.giveCtx, hr, Machine.setSt], ?_⟩
  intro j hj
  simp [Machine.giveCtx, hr, Machine.setSt, hj]

lemma cancelCur_some {m : Machine} {c : Nat} {sc : StCtx}
    (hc : m.current = some c) (hctx : (m.heap c).ctx = some sc) :
    m.cancelCur.2 = [Event.scopeCancelled c]
    ∧ (m.cancelCur.1.heap c).ctx = some { sc with ownCancelled := true }
    ∧ ∀ j, j ≠ c → m.cancelCur.1.heap j = m.heap j := by
  refine ⟨by simp [Machine.cancelCur, hc, hctx],
          by simp [Machine.cancelCur, hc, hctx, Machine.setSt], ?_⟩
  intro j hj
  simp [Machine.cancelCur, hc, hctx, Machine.setSt, hj]

lemma cancelCur_none_ctx {m : Machine} {c : Nat}
    (hc : m.current = some c) (hctx : (m.heap c).ctx = none) :
    m.cancelCur = (m, []) := by
  simp [Machine.cancelCur, hc, hctx]

lemma dispatch_par {m : Machine} {i : Nat} (tr : Transition)
    (hp : (m.heap i).parallel = true) :
    m.dispatch i tr = (none, { m with current := some i }, [Event.goDispatch tr]) := by
  simp [Machine.dispatch, hp]

lemma dispatch_seq {m : Machine} {i : Nat} (tr : Transition)
    (hp : (m.heap i).parallel = false) (he : m.rootErr = false) :
    m.dispatch i tr =
      (none, { m with current := some i, queue := m.queue ++ [tr] },
       [Event.enqueued tr]) := by
  simp [Machine.dispatch, hp, he]

/-- Concrete machine refuting C4 as stated: the machine HAS a root scope,
but that root scope is already cancelled; the valid target "b" is
parallel, so the transition fully succeeds and advances current — yet
the freshly created scope of the newly-current state is born cancelled
(child of a cancelled parent), contradicting "not cancelled". -/
def stC4b : State :=
  { blankState with Destination := "b", Source := ["a"], parallel := true }

def mC4 : Machine :=
  { New with
      heap := fun j =>
        if j = 0 then { blankState with Destination := "a", ctx := some ⟨0, false, 0⟩ }
        else if j = 1 then stC4b
        else blankState,
      nextSt := 2, registry := [0, 1], current := some 0,
      roots := fun r => r == 0, nextRoot := 1, root := some 0, nextGen := 1 }

/-- Counterexample to C4: machine with a (cancelled) root scope, a
successful Transition into the new state 1; the freshly created scope of
the newly-current state reports cancelled. -/
theorem C4_cex_cancelled_root :
    mC4.root = some 0
    ∧ (mC4.Transition "b").1 = none
    ∧ (mC4.Transition "b").2.1.current = some 1
    ∧ ((mC4.Transition "b").2.1.heap 1).ctx = some ⟨1, false, 0⟩
    ∧ (mC4.Transition "b").2.1.ctxErr ⟨1, false, 0⟩ = true :=
  ⟨rfl, rfl, rfl, rfl, rfl⟩

/-- C4 amended: for a machine whose root scope exists and is NOT
cancelled, a successful Transition from current state c into target i
leaves current at i, gives i a fresh scope that is not cancelled, leaves
c's scope (when it had one) cancelled, and emits, in program order, the
scope creation, then the cancellation of the outgoing scope, and only
then the hand-off of the record (queue push, or background dispatch) —
so the outgoing scope is cancelled before the record reaches the worker
and hence before the new entry action can run. -/
theorem C4_scope_lifecycle (m : Machine) (tn : String) (i c rid : Nat)
    (hroot : m.root = some rid)
    (hlive : m.roots rid = false)
    (hcur : m.current = some c)
    (hmatch : m.Match [tn] = false)
    (hvalid : m.IsValidStateChange tn = .ok i) :
    ∃ m', m.Transition tn =
      (none, m',
        Event.scopeCreated i m.nextGen
          :: ((if (m.heap c).ctx.isSome then [Event.scopeCancelled c] else [])
              ++ [if (m.heap i).parallel then Event.goDispatch ⟨some c, i⟩
                  else Event.enqueued ⟨some c, i⟩]))
      ∧ m'.current = some i
      ∧ (m'.heap i).ctx = some ⟨m.nextGen, false, rid⟩
      ∧ m'.ctxErr ⟨m.nextGen, false, rid⟩ = false
      ∧ ∀ sc, (m.heap c).ctx = some sc →
          (m'.heap c).ctx = some { sc with ownCancelled := true }
          ∧ m'.ctxErr { sc with ownCancelled := true } = true := by
  have hfind := isValid_ok_find hvalid
  have hdi : (m.heap i).Destination = tn := find_some_dest hfind
  have hdc : (m.heap c).Destination ≠ tn := by
    intro h
    rw [match_single hcur] at hmatch
    simp [h] at hmatch
  have hic : i ≠ c := fun h => hdc (h ▸ hdi)
  obtain ⟨hev1, hctxi, hoth1⟩ := giveCtx_some i hroot
  have hcur1 : (m.giveCtx i).1.current = some c := by
    rw [giveCtx_current, hcur]
  have hheapc1 : (m.giveCtx i).1.heap c = m.heap c :=
    hoth1 c (fun h => hic h.symm)
  have hroots1 : (m.giveCtx i).1.roots = m.roots := giveCtx_roots m i
  have herr1 : (m.giveCtx i).1.rootErr = false := by
    rw [rootErr_of_parts (giveCtx_root m i) hroots1, Machine.rootErr, hroot]
    exact hlive
  rw [transition_ok_eq hmatch hvalid, hcur]
  cases hctx : (m.heap c).ctx with
  | none =>
    have hcc : (m.giveCtx i).1.cancelCur = ((m.giveCtx i).1, []) :=
      cancelCur_none_ctx hcur1 (by rw [hheapc1, hctx])
    rw [hcc]
    by_cases hp : (m.heap i).parallel
    · have hp1 : ((m.giveCtx i).1.heap i).parallel = true := by
        rw [giveCtx_heap_parallel]; exact hp
      rw [dispatch_par _ hp1]
      refine ⟨{ (m.giveCtx i).1 with current := some i }, ?_, rfl, ?_, ?_, ?_⟩
      · simp [hev1, hctx, hp]
      · simpa using hctxi
      · simp [Machine.ctxErr, hroots1, hlive]
      · intro sc hsc
        exact Option.noConfusion hsc
    · have hpf : (m.heap i).parallel = false := by
        simpa using hp
      have hp1 : ((m.giveCtx i).1.heap i).parallel = false := by
        rw [giveCtx_heap_parallel]; exact hpf
      rw [dispatch_seq _ hp1 herr1]
      refine ⟨{ (m.giveCtx i).1 with current := some i, queue := (m.giveCtx i).1.queue ++ [⟨some c, i⟩] }, ?_, rfl, ?_, ?_, ?_⟩
      · simp [hev1, hctx, hpf]
      · simpa using hctxi
      · simp [Machine.ctxErr, hroots1, hlive]
      · intro sc hsc
        exact Option.noConfusion hsc
  | some sc0 =>
    obtain ⟨hev2, hctxc2, hoth2⟩ :=
      cancelCur_some (m := (m.giveCtx i).1) hcur1 (by rw [hheapc1, hctx])
    have hctxi2 : (((m.giveCtx i).1.cancelCur).1.heap i).ctx = some ⟨m.nextGen, false, rid⟩ := by
      rw [hoth2 i hic]
      exact hctxi
    have hroots2 : ((m.giveCtx i).1.cancelCur).1.roots = m.roots := by
      rw [cancelCur_roots, hroots1]
    have herr2 : ((m.giveCtx i).1.cancelCur).1.rootErr = false := by
      rw [rootErr_of_parts (cancelCur_root _) (cancelCur_roots _)]
      exact herr1
    by_cases hp : (m.heap i).parallel
    · have hp2 : (((m.giveCtx i).1.cancelCur).1.heap i).parallel = true := by
        rw [cancelCur_heap_parallel, giveCtx_heap_parallel]
        exact hp
      rw [dispatch_par _ hp2]
      refine ⟨{ ((m.giveCtx i).1.cancelCur).1 with current := some i }, ?_, rfl, ?_, ?_, ?_⟩
      · simp [hev1, hev2, hctx, hp]
      · simpa using hctxi2
      · simp [Machine.ctxErr, hroots2, hlive]
      · intro sc hsc
        injection hsc with hsc
        subst hsc
        constructor
        · simpa using hctxc2
        · simp [Machine.ctxErr, hroots2]
    · have hpf : (m.heap i).parallel = false := by
        simpa using hp
      have hp2 : (((m.giveCtx i).1.cancelCur).1.heap i).parallel = false := by
        rw [cancelCur_heap_parallel, giveCtx_heap_parallel]
        exact hpf
      rw [dispatch_seq _ hp2 herr2]
      refine ⟨{ ((m.giveCtx i).1.cancelCur).1 with current := some i, queue := ((m.giveCtx i).1.cancelCur).1.queue ++ [⟨some c, i⟩] }, ?_, rfl, ?_, ?_, ?_⟩
      · simp [hev1, hev2, hctx, hpf]
      · simpa using hctxi2
      · simp [Machine.ctxErr, hroots2, hlive]
      · intro sc hsc
        injection hsc with hsc
        subst hsc
        constructor
        · simpa using hctxc2
        · simp [Machine.ctxErr, hroots2]

/-- Concrete live-root machine for the C4 witness: current state 0 ("a")
with a live scope, sequential target 1 ("b") reachable from "a". -/
def mW4 : Machine :=
  { New with
      heap := fun j =>
        if j = 0 then { blankState with Destination := "a", ctx := some ⟨0, false, 0⟩ }
        else if j = 1 then { blankState with Destination := "b", Source := ["a"] }
        else blankState,
      nextSt := 2, registry := [0, 1], current := some 0,
      nextRoot := 1, root := some 0, nextGen := 1 }

/-- Witness for the amended C4 at a concrete machine with a live root
scope. -/
theorem C4_scope_lifecycle_w :
    ∃ m', mW4.Transition "b" =
      (none, m',
        Event.scopeCreated 1 mW4.nextGen
          :: ((if (mW4.heap 0).ctx.isSome then [Event.scopeCancelled 0] else [])
              ++ [if (mW4.heap 1).parallel then Event.goDispatch ⟨some 0, 1⟩
                  else Event.enqueued ⟨some 0, 1⟩]))
      ∧ m'.current = some 1
      ∧ (m'.heap 1).ctx = some ⟨mW4.nextGen, false, 0⟩
      ∧ m'.ctxErr ⟨mW4.nextGen, false, 0⟩ = false
      ∧ ∀ sc, (mW4.heap 0).ctx = some sc →
          (m'.heap 0).ctx = some { sc with ownCancelled := true }
          ∧ m'.ctxErr { sc with ownCancelled := true } = true :=
  C4_scope_lifecycle mW4 "b" 1 0 0 rfl rfl rfl (by decide) rfl

lemma initWorker_fields (m : Machine) :
    m.initWorker.hasOnStart = m.hasOnStart ∧ m.initWorker.root = m.root
    ∧ m.initWorker.nextSt = m.nextSt ∧ m.initWorker.nextGen = m.nextGen
    ∧ m.initWorker.registry = m.registry := by
  unfold Machine.initWorker
  split <;> simp

/-- Concrete machine refuting C7 as stated: a start hook is registered
but the machine was never given a root scope via WithContext — Start
does not return nil: it panics (context.WithCancel with a nil parent). -/
def mC7 : Machine := New.OnStart

/-- Counterexample to C7: with a start hook and no root scope, Start
panics instead of succeeding. -/
theorem C7_cex_start_panics :
    mC7.hasOnStart = true ∧ mC7.root = none ∧ mC7.Start = .panicked :=
  ⟨rfl, rfl, rfl⟩

/-- C7 amended: Start fails with the MissingStartHook error exactly when
no start hook was registered; with a hook AND a root scope it synthesizes
the implicit start state (a fresh heap slot outside the registry), gives
it a fresh lifecycle scope, sets it current and invokes the start hook
synchronously, returning normally; with a hook but NO root scope it
panics (context.WithCancel of the nil machine context). -/
theorem C7_start_behavior (m : Machine) :
    (m.hasOnStart = false →
       m.Start = .errored "Finite State Machine is missing 'OnStart' method" m.initWorker)
    ∧ (m.hasOnStart = true → m.root = none → m.Start = .panicked)
    ∧ (∀ rid, m.hasOnStart = true → m.root = some rid →
        ∃ m', m.Start = .ok m' m.nextSt [Event.hookStart m.nextSt]
          ∧ m'.current = some m.nextSt
          ∧ (m'.heap m.nextSt).isStart = true
          ∧ (m'.heap m.nextSt).ctx = some ⟨m.nextGen, false, rid⟩
          ∧ m'.registry = m.registry) := by
  obtain ⟨hOS, hR, hNS, hNG, hREG⟩ := initWorker_fields m
  refine ⟨?_, ?_, ?_⟩
  · intro h
    simp [Machine.Start, hOS, h]
  · intro hs hr
    simp [Machine.Start, hOS, hs, hR, hr]
  · intro rid hs hr
    refine ⟨({ m.initWorker with nextGen := m.initWorker.nextGen + 1, nextSt := m.initWorker.nextSt + 1, current := some m.initWorker.nextSt }).setSt m.initWorker.nextSt { blankState with isStart := true, ctx := some ⟨m.initWorker.nextGen, false, rid⟩ }, ?_, ?_, ?_, ?_, ?_⟩
    · simp [Machine.Start, hOS, hs, hR, hr, hNS, hNG]
    · simp [Machine.setSt, hNS]
    · simp [Machine.setSt, hNS]
    · simp [Machine.setSt, hNS, hNG]
    · simp [Machine.setSt, hREG]

/-- Concrete machine for the C7 witness: root scope and start hook. -/
def mW7 : Machine := New.WithContext.OnStart

/-- Witness for the amended C7: with a hook and a root scope, Start
returns normally with the synthesized start state current. -/
theorem C7_start_behavior_w :
    ∃ m', mW7.Start = .ok m' mW7.nextSt [Event.hookStart mW7.nextSt]
      ∧ m'.current = some mW7.nextSt
      ∧ (m'.heap mW7.nextSt).isStart = true
      ∧ (m'.heap mW7.nextSt).ctx = some ⟨mW7.nextGen, false, 0⟩
      ∧ m'.registry = mW7.registry :=
  (C7_start_behavior mW7).2.2 0 rfl rfl

lemma dispatch_drop {m : Machine} {i : Nat} (tr : Transition)
    (hp : (m.heap i).parallel = false) (he : m.rootErr = true) :
    m.dispatch i tr = (none, m, []) := by
  simp [Machine.dispatch, hp, he]

lemma dispatch_root (m : Machine) (i : Nat) (tr : Transition) :
    (m.dispatch i tr).2.1.root = m.root := by
  unfold Machine.dispatch
  split
  · rfl
  · split <;> rfl

lemma dispatch_heap (m : Machine) (i : Nat) (tr : Transition) (j : Nat) :
    (m.dispatch i tr).2.1.heap j = m.heap j := by
  unfold Machine.dispatch
  split
  · rfl
  · split <;> rfl

lemma transition_root (m : Machine) (tn : String) :
    (m.Transition tn).2.1.root = m.root := by
  by_cases hm : m.Match [tn] = true
  · rw [transition_self hm]
  · have hm' : m.Match [tn] = false := by simpa using hm
    cases hv : m.IsValidStateChange tn with
    | error e => rw [transition_invalid hm' hv]
    | ok i => rw [transition_ok_eq hm' hv, dispatch_root, cancelCur_root, giveCtx_root]

lemma ctxRoot_setSt {m : Machine} {i : Nat} {st : State}
    (hctx : st.ctx = (m.heap i).ctx)
    (ih : ∀ j sc, (m.heap j).ctx = some sc → m.root ≠ none) :
    ∀ j sc, ((m.setSt i st).heap j).ctx = some sc → m.root ≠ none := by
  intro j sc h
  simp only [Machine.setSt] at h
  by_cases hj : j = i
  · rw [if_pos hj] at h
    exact ih i sc (hctx ▸ h)
  · rw [if_neg hj] at h
    exact ih j sc h

lemma ctxRoot_transition {m : Machine} (tn : String)
    (ih : ∀ j sc, (m.heap j).ctx = some sc → m.root ≠ none) :
    ∀ j sc, ((m.Transition tn).2.1.heap j).ctx = some sc → m.root ≠ none := by
  intro j sc h
  by_cases hm : m.Match [tn] = true
  · rw [transition_self hm] at h
    exact ih j sc h
  · have hm' : m.Match [tn] = false := by simpa using hm
    cases hv : m.IsValidStateChange tn with
    | error e =>
      rw [transition_invalid hm' hv] at h
      exact ih j sc h
    | ok i =>
      rw [transition_ok_eq hm' hv] at h
      rw [dispatch_heap] at h
      cases hr : m.root with
      | some rid => simp [hr]
      | none =>
        have hg : m.giveCtx i = (m, []) := by
          simp [Machine.giveCtx, hr]
        rw [hg] at h
        cases hc : m.current with
        | none =>
          have hcc : m.cancelCur = (m, []) := by
            simp [Machine.cancelCur, hc]
          rw [hcc] at h
          exact absurd hr (ih j sc h)
        | some c =>
          cases hcx : (m.heap c).ctx with
          | none =>
            have hcc : m.cancelCur = (m, []) := cancelCur_none_ctx hc hcx
            rw [hcc] at h
            exact absurd hr (ih j sc h)
          | some sc0 =>
            exact absurd hr (ih c sc0 hcx)

lemma start_ok_root {m m' : Machine} {idx : Nat} {evs : List Event}
    (h : m.Start = .ok m' idx evs) : m'.root ≠ none := by
  simp only [Machine.Start] at h
  split at h
  · cases h
  · cases hr : m.initWorker.root with
    | none => simp [hr] at h
    | some rid =>
      rw [hr] at h
      injection h with h1 _ _
      rw [← h1]
      simp [Machine.setSt, hr]

lemma start_err_machine {m : Machine} {msg : String} {m' : Machine}
    (h : m.Start = .errored msg m') : m' = m.initWorker := by
  simp only [Machine.Start] at h
  split at h
  · injection h with _ h2
    exact h2.symm
  · cases hr : m.initWorker.root with
    | none => simp [hr] at h
    | some rid => simp [hr] at h

/-- First machine of the C6 counterexample run: with a root scope, a
state "foo" and a state "bar" registered. -/
def mC6a : Machine := ((New.WithContext.NewState).1.setFrom 0 ["bar"]).setTo 0 "foo"

def mC6b : Machine := ((mC6a.NewState).1.setFrom 1 ["foo"]).setTo 1 "bar"

/-- The machine after Transition "foo" then Transition "bar" (the
TestCancelContext scenario). -/
def mC6 : Machine := ((mC6b.Transition "foo").2.1.Transition "bar").2.1

lemma mC6_reachable : Reachable mC6 :=
  Reachable.transition "bar" (Reachable.transition "foo"
    (Reachable.setTo 1 "bar" (Reachable.setFrom 1 ["foo"] (Reachable.newState
      (Reachable.setTo 0 "foo" (Reachable.setFrom 0 ["bar"] (Reachable.newState
        (Reachable.withContext Reachable.new))))))))

/-- Counterexample to C6: in a reachable machine with a root scope, the
state that is no longer current ("foo", slot 0: current is slot 1) still
has a non-nil lifecycle context field — leaving a state cancels its
scope but never resets the field to nil (exactly what TestCancelContext
asserts: st.ctx.Err() is non-nil after transitioning away). -/
theorem C6_cex_ctx_remains :
    Reachable mC6 ∧ mC6.root ≠ none ∧ mC6.current = some 1
    ∧ mC6.current ≠ some 0
    ∧ (mC6.heap 0).ctx = some ⟨0, true, 0⟩
    ∧ (mC6.heap 0).ctx ≠ none :=
  ⟨mC6_reachable, by decide, by decide, by decide, by decide, by decide⟩

/-- C6 amended: over all reachable machines, a State's lifecycle context
field is non-nil only when the machine has a root scope (equivalently:
whenever the machine has no root scope, every state's field is nil).
The "only while current" half of the original claim is dropped: leaving
a state cancels its scope but does not reset the field. -/
theorem C6_ctx_root_invariant :
    ∀ m : Machine, Reachable m →
      ∀ i sc, (m.heap i).ctx = some sc → m.root ≠ none := by
  intro m hm
  induction hm with
  | new =>
    intro i sc h
    simp [New, blankState] at h
  | @withContext m0 _ ih =>
    intro i sc h
    simp [Machine.WithContext]
  | @cancelRoot m0 _ ih =>
    intro i sc h
    unfold Machine.cancelRoot at h ⊢
    cases hr : m0.root with
    | none =>
      rw [hr] at h
      exact ih i sc h
    | some r =>
      rw [hr] at h
      simp [hr]
  | @newState m0 _ ih =>
    intro i sc h
    simp only [Machine.NewState] at h
    by_cases hi : i = m0.nextSt
    · rw [if_pos hi] at h
      simp [blankState] at h
    · rw [if_neg hi] at h
      exact ih i sc h
  | @setTo m0 i0 dn _ ih =>
    exact ctxRoot_setSt rfl ih
  | @setFrom m0 i0 src _ ih =>
    exact ctxRoot_setSt rfl ih
  | @setFromAny m0 i0 _ ih =>
    exact ctxRoot_setSt rfl ih
  | @setFromStart m0 i0 _ ih =>
    exact ctxRoot_setSt rfl ih
  | @setOnEnter m0 i0 a _ ih =>
    exact ctxRoot_setSt rfl ih
  | @setParallel m0 i0 p _ ih =>
    exact ctxRoot_setSt rfl ih
  | @onStart m0 _ ih =>
    exact ih
  | @beforeTransition m0 _ ih =>
    exact ih
  | @initW m0 _ ih =>
    intro i sc h
    by_cases hw : m0.workerStarted
      <;> simp only [Machine.initWorker, hw, if_true, if_false, Bool.false_eq_true] at h ⊢
      <;> exact ih i sc h
  | @startOk m0 m' idx evs _ hst ih =>
    intro i sc h
    exact start_ok_root hst
  | @startErr m0 msg m' _ hst ih =>
    intro i sc h
    have hm' : m' = m0.initWorker := start_err_machine hst
    subst hm'
    by_cases hw : m0.workerStarted
      <;> simp only [Machine.initWorker, hw, if_true, if_false, Bool.false_eq_true] at h ⊢
      <;> exact ih i sc h
  | @transition m0 tn _ ih =>
    intro i sc h
    rw [transition_root]
    exact ctxRoot_transition tn ih i sc h

/-- Witness for the amended C6 at the concrete reachable machine of the
counterexample run. -/
theorem C6_ctx_root_invariant_w : mC6.root ≠ none :=
  C6_ctx_root_invariant mC6 mC6_reachable 0 ⟨0, true, 0⟩ (by decide)

lemma giveCtx_enq_nil (m : Machine) (i : Nat) :
    ((m.giveCtx i).2).filterMap enqRec = [] := by
  cases hr : m.root <;> simp [Machine.giveCtx, hr, enqRec]

lemma cancelCur_enq_nil (m : Machine) :
    (m.cancelCur.2).filterMap enqRec = [] := by
  cases h : m.current with
  | none => simp [Machine.cancelCur, h]
  | some c => cases hc : (m.heap c).ctx <;> simp [Machine.cancelCur, h, hc, enqRec]

lemma giveCtx_no_go (m : Machine) (i : Nat) (t : Transition) :
    Event.goDispatch t ∉ (m.giveCtx i).2 := by
  cases hr : m.root <;> simp [Machine.giveCtx, hr]

lemma cancelCur_no_go (m : Machine) (t : Transition) :
    Event.goDispatch t ∉ m.cancelCur.2 := by
  cases h : m.current with
  | none => simp [Machine.cancelCur, h]
  | some c => cases hc : (m.heap c).ctx <;> simp [Machine.cancelCur, h, hc]

/-- One Transition call grows the queue exactly by the records of its
enqueue events, appended at the back (the channel is FIFO). -/
lemma transition_queue_step (m : Machine) (tn : String) :
    (m.Transition tn).2.1.queue
      = m.queue ++ ((m.Transition tn).2.2).filterMap enqRec := by
  by_cases hm : m.Match [tn] = true
  · rw [transition_self hm]
    simp
  · have hm' : m.Match [tn] = false := by simpa using hm
    cases hv : m.IsValidStateChange tn with
    | error e =>
      rw [transition_invalid hm' hv]
      simp
    | ok i =>
      rw [transition_ok_eq hm' hv]
      by_cases hp : (((m.giveCtx i).1.cancelCur).1.heap i).parallel
      · rw [dispatch_par _ hp]
        simp [List.filterMap_append, giveCtx_enq_nil, cancelCur_enq_nil, enqRec,
              cancelCur_queue, giveCtx_queue]
      · have hpf : (((m.giveCtx i).1.cancelCur).1.heap i).parallel = false := by
          simpa using hp
        by_cases he : ((m.giveCtx i).1.cancelCur).1.rootErr
        · rw [dispatch_drop _ hpf he]
          simp [List.filterMap_append, giveCtx_enq_nil, cancelCur_enq_nil,
                cancelCur_queue, giveCtx_queue]
        · have hef : ((m.giveCtx i).1.cancelCur).1.rootErr = false := by
            simpa using he
          rw [dispatch_seq _ hpf hef]
          simp [List.filterMap_append, giveCtx_enq_nil, cancelCur_enq_nil, enqRec,
                cancelCur_queue, giveCtx_queue]

/-- Over a whole run of Transition calls the queue receives exactly the
accepted sequential records, in acceptance order. -/
lemma runAll_queue (m : Machine) (names : List String) :
    ((m.runAll names).1).queue
      = m.queue ++ ((m.runAll names).2).filterMap enqRec := by
  induction names generalizing m with
  | nil => simp [Machine.runAll]
  | cons n rest ih =>
    simp only [Machine.runAll]
    rw [ih, transition_queue_step, List.filterMap_append, List.append_assoc]

lemma drainFrom_eq_join (m : Machine) (q : List Transition) :
    m.drainFrom q = (q.map m.execOne).flatten := by
  induction q with
  | nil => rfl
  | cons t rest ih => simp [Machine.drainFrom, ih]

/-- A background dispatch leaves the queue untouched and the dispatched
target is a parallel state. -/
lemma goDispatch_bypass (m : Machine) (tn : String) (t : Transition)
    (h : Event.goDispatch t ∈ (m.Transition tn).2.2) :
    (m.Transition tn).2.1.queue = m.queue ∧ (m.heap t.To).parallel = true := by
  by_cases hm : m.Match [tn] = true
  · rw [transition_self hm] at h
    simp at h
  · have hm' : m.Match [tn] = false := by simpa using hm
    cases hv : m.IsValidStateChange tn with
    | error e =>
      rw [transition_invalid hm' hv] at h
      simp at h
    | ok i =>
      rw [transition_ok_eq hm' hv] at h ⊢
      by_cases hp : (((m.giveCtx i).1.cancelCur).1.heap i).parallel
      · rw [dispatch_par _ hp] at h ⊢
        rw [List.append_assoc, List.mem_append] at h
        rcases h with h | h
        · exact absurd h (giveCtx_no_go m i t)
        · rw [List.mem_append] at h
          rcases h with h | h
          · exact absurd h (cancelCur_no_go _ t)
          · simp only [List.mem_singleton] at h
            have ht : t = ⟨m.current, i⟩ := by
              injection h with h1
            constructor
            · simp [cancelCur_queue, giveCtx_queue]
            · rw [cancelCur_heap_parallel, giveCtx_heap_parallel] at hp
              rw [ht]
              exact hp
      · have hpf : (((m.giveCtx i).1.cancelCur).1.heap i).parallel = false := by
          simpa using hp
        by_cases he : ((m.giveCtx i).1.cancelCur).1.rootErr
        · rw [dispatch_drop _ hpf he] at h
          rw [List.append_assoc, List.mem_append] at h
          rcases h with h | h
          · exact absurd h (giveCtx_no_go m i t)
          · rw [List.mem_append] at h
            rcases h with h | h
            · exact absurd h (cancelCur_no_go _ t)
            · simp at h
        · have hef : ((m.giveCtx i).1.cancelCur).1.rootErr = false := by
            simpa using he
          rw [dispatch_seq _ hpf hef] at h
          rw [List.append_assoc, List.mem_append] at h
          rcases h with h | h
          · exact absurd h (giveCtx_no_go m i t)
          · rw [List.mem_append] at h
            rcases h with h | h
            · exact absurd h (cancelCur_no_go _ t)
            · simp at h

/-- C8: sequential ordering of entry actions.  (i) Over any run of
Transition calls the queue grows exactly by the accepted non-background
records in acceptance order (the channel is FIFO); (ii) with a live root
scope the single worker loop executes the queued records one after the
other, front to back — so non-parallel entry actions run in exactly the
order their transitions were accepted; (iii) a background dispatch never
touches the queue and its target is a parallel state, so background
actions bypass the worker entirely. -/
theorem C8_worker_order :
    (∀ (m : Machine) (names : List String),
       ((m.runAll names).1).queue
         = m.queue ++ ((m.runAll names).2).filterMap enqRec)
    ∧ (∀ (m : Machine) (r : Nat), m.root = some r → m.roots r = false →
       m.workerRun = some ((m.queue.map m.execOne).flatten))
    ∧ (∀ (m : Machine) (tn : String) (t : Transition),
       Event.goDispatch t ∈ (m.Transition tn).2.2 →
         (m.Transition tn).2.1.queue = m.queue
         ∧ (m.heap t.To).parallel = true) := by
  refine ⟨runAll_queue, ?_, goDispatch_bypass⟩
  intro m r hr hl
  simp [Machine.workerRun, Machine.rootErr, hr, hl, drainFrom_eq_join]

/-- Concrete machine for the C8 witness: live root scope and one
fromAny, parallel state named "go". -/
def mW8 : Machine :=
  { New with
      heap := fun j =>
        if j = 0 then { blankState with Destination := "go", fromAny := true, parallel := true }
        else blankState,
      nextSt := 1, registry := [0], nextRoot := 1, root := some 0 }

/-- Witness for C8 at concrete inputs: the queue equation over a run, the
worker FIFO drain, and the bypass of a background dispatch. -/
theorem C8_worker_order_w :
    (((mW8.runAll ["go"]).1).queue
       = mW8.queue ++ ((mW8.runAll ["go"]).2).filterMap enqRec)
    ∧ mW8.workerRun = some ((mW8.queue.map mW8.execOne).flatten)
    ∧ ((mW8.Transition "go").2.1.queue = mW8.queue
       ∧ (mW8.heap 0).parallel = true) :=
  ⟨C8_worker_order.1 mW8 ["go"],
   C8_worker_order.2.1 mW8 0 rfl rfl,
   C8_worker_order.2.2 mW8 "go" ⟨none, 0⟩ (by decide)⟩

end Fsm
